import Mathlib

/-!
Verification of the grustyssh SSH/SFTP core against its specification.

The Rust sources (`src/ssh/session.rs`, `src/ssh/sftp.rs`) are shallowly
embedded below: pure string helpers become Lean functions on `String`,
the SFTP server and SSH peer become explicit oracle/state parameters, and
the event-emitting tasks become functions from an input script to the
list of emitted events plus an outcome.  Rust `Result` becomes `Except`,
machine integers become `Nat`/`Int` (with explicit wrap-around where the
code casts).

The file is organised as: all definitions first, then all lemmas and
theorems.
-/

namespace Grustyssh

/-! ### String helpers

The Rust code uses `trim_end_matches('/')`, `ends_with('/')`,
`starts_with('/')`, `split('/')` and `rsplit('/').next()`.  They are
modelled below on `String` via the underlying character list. -/

/-- Rust `s.trim_end_matches('/')`: remove every trailing `'/'`. -/
def trimEndSlashes (s : String) : String :=
  String.mk ((s.toList.reverse.dropWhile (fun c => c == '/')).reverse)

/-- Rust `s.ends_with('/')`. -/
def endsWithSlash (s : String) : Bool :=
  match s.toList.reverse with
  | [] => false
  | c :: _ => c == '/'

/-- Rust `s.starts_with('/')`. -/
def startsWithSlash (s : String) : Bool :=
  match s.toList with
  | [] => false
  | c :: _ => c == '/'

/-- Rust `s.rsplit('/').next()`: the substring after the last `'/'`
(the whole string when it contains no `'/'`). -/
def afterLastSlash (s : String) : String :=
  String.mk ((s.toList.reverse.takeWhile (fun c => c != '/')).reverse)

/-- Split a character list at `'/'` (Rust `split('/')`: empty pieces are
kept). -/
def splitSlashChars : List Char → List Char → List (List Char)
  | [], acc => [acc.reverse]
  | c :: rest, acc =>
    if c = '/' then acc.reverse :: splitSlashChars rest []
    else splitSlashChars rest (c :: acc)

/-- Rust `s.split('/')` as a list of strings. -/
def splitSlashes (s : String) : List String :=
  (splitSlashChars s.toList []).map String.mk

/-- String prefix test, used to model "q lies at a path that extends p":
the strings are compared character by character. -/
def strPrefix (p q : String) : Bool :=
  p.toList.isPrefixOf q.toList

/-! ### Remote path algebra (`src/ssh/sftp.rs`, `join_remote_path` and
`remote_basename`) -/

/-- `src/ssh/sftp.rs` lines 215–225. -/
def join_remote_path (base name : String) : String :=
  if base = "/" then "/" ++ name
  else if endsWithSlash base then base ++ name
  else if base = "" then name
  else base ++ "/" ++ name

/-- `src/ssh/sftp.rs` lines 202–213. -/
def remote_basename (path : String) : String :=
  let trimmed := trimEndSlashes path
  if trimmed = "" then "/"
  else
    let last := afterLastSlash trimmed
    if last = "" then trimmed else last

/-! ### Directory listing (`src/ssh/sftp.rs`, `run_sftp_session`,
`SftpCommand::ListDir` arm, lines 123–148) -/

/-- A raw entry as returned by the SFTP server's `read_dir`
(`entry.file_name()` / `entry.metadata()`). -/
structure RawEntry where
  file_name : String
  is_dir : Bool
  size : Option Nat
  mtime : Option Int
  deriving DecidableEq, Repr

/-- `SftpEntry` from `src/ssh/sftp.rs` lines 57–63. -/
structure SftpEntry where
  name : String
  is_dir : Bool
  size : Nat
  modified : Option Nat
  deriving DecidableEq, Repr

/-- Rust `bool` `Ord`: `false < true`. -/
def boolCmp : Bool → Bool → Ordering
  | false, false => .eq
  | false, true => .lt
  | true, false => .gt
  | true, true => .eq

/-- Rust `str::cmp` on the character (scalar-value) sequence:
lexicographic comparison. -/
def lexCmp : List Char → List Char → Ordering
  | [], [] => .eq
  | [], _ :: _ => .lt
  | _ :: _, [] => .gt
  | a :: as, b :: bs => (compare a.toNat b.toNat).then (lexCmp as bs)

/-- Rust `s.to_lowercase()` as a character list (ASCII-accurate; Lean's
`Char.toLower` lowers only ASCII letters). -/
def lowerStr (s : String) : List Char :=
  s.toList.map Char.toLower

/-- The comparator at `src/ssh/sftp.rs` lines 140–142:
`b.is_dir.cmp(&a.is_dir).then(a.name.to_lowercase().cmp(&b.name.to_lowercase()))`. -/
def entryCmp (a b : SftpEntry) : Ordering :=
  (boolCmp b.is_dir a.is_dir).then (lexCmp (lowerStr a.name) (lowerStr b.name))

/-- The "a may precede b" relation induced by `entryCmp`; `Vec::sort_by`
orders the list so that consecutive elements never compare `Greater`. -/
def entryLE (a b : SftpEntry) : Prop :=
  entryCmp a b ≠ .gt

instance : DecidableRel entryLE := fun a b =>
  inferInstanceAs (Decidable (entryCmp a b ≠ .gt))

/-- `listing.sort_by(...)`: Rust's stable comparator sort, modelled as a
stable sort with the same comparator. -/
def sortEntries (l : List SftpEntry) : List SftpEntry :=
  List.insertionSort entryLE l

/-- The `ListDir` arm of `run_sftp_session` (lines 123–143): drop `.` and
`..`, build `SftpEntry` values (`size.unwrap_or(0)`, `mtime` cast
`as u64`, i.e. reduced modulo `2^64`), then sort. -/
def listEntries (entries : List RawEntry) : List SftpEntry :=
  sortEntries (entries.filterMap fun e =>
    if e.file_name = "." ∨ e.file_name = ".." then none
    else some { name := e.file_name
                is_dir := e.is_dir
                size := e.size.getD 0
                modified := e.mtime.map (fun t => ((t % ((2 : Int) ^ 64)).toNat)) })

/-! ### Conflict resolution (`src/ssh/sftp.rs` lines 29–39 and 237–274) -/

/-- `SftpConflictDecision`, lines 30–33. -/
inductive SftpConflictDecision
  | keepExisting
  | replaceWithIncoming
  deriving DecidableEq, Repr

/-- `SftpConflictResponse`, lines 36–39. -/
structure SftpConflictResponse where
  decision : SftpConflictDecision
  apply_to_all : Bool
  deriving DecidableEq, Repr

/-- `ConflictPolicy`, lines 237–240 (`#[derive(Default)]`, so `apply_all`
starts as `None`). -/
structure ConflictPolicy where
  apply_all : Option SftpConflictDecision := none
  deriving DecidableEq, Repr

/-- `ask_transfer_conflict`, lines 242–274.  The UI at the other end of the
response channel is modelled as the list of responses it will give to
successive prompts.  Returns the decision, the updated policy, the
remaining responses, and whether a `TransferConflict` event was emitted.
`none` models `response_rx.recv()` failing (channel closed), which makes
the transfer fail; in that case a prompt event was still emitted but no
decision is produced. -/
def ask_transfer_conflict (policy : ConflictPolicy)
    (responses : List SftpConflictResponse) :
    Option (SftpConflictDecision × ConflictPolicy × List SftpConflictResponse × Bool) :=
  match policy.apply_all with
  | some decision => some (decision, policy, responses, false)
  | none =>
    match responses with
    | [] => none
    | response :: rest =>
      let policy' := if response.apply_to_all
        then { apply_all := some response.decision } else policy
      some (response.decision, policy', rest, true)

/-- One transfer's successive conflicts: process `n` conflict sites
starting from `policy`, threading the policy state exactly as the
`&mut conflict_policy` reference does through one `Upload`/`Download`
command.  For each conflict, record whether a `TransferConflict` event was
emitted and which decision was applied. -/
def runConflicts : ConflictPolicy → List SftpConflictResponse → Nat →
    Option (List (Bool × SftpConflictDecision))
  | _, _, 0 => some []
  | policy, responses, n + 1 =>
    match ask_transfer_conflict policy responses with
    | none => none
    | some (decision, policy', rest, emitted) =>
      (runConflicts policy' rest n).map (fun outs => (emitted, decision) :: outs)

/-! ### Authentication (`src/ssh/session.rs` lines 58–111,
`src/models/connection.rs` `AuthMethod`, `src/error.rs` `AppError`) -/

/-- `AuthMethod` from `src/models/connection.rs`. -/
inductive AuthMethod
  | password
  | publicKey
  | both
  deriving DecidableEq, Repr

/-- The `AppError` variants constructed by `run_session`
(`src/error.rs` has further variants, unused by the session code). -/
inductive AppError
  | connection (msg : String)
  | auth (msg : String)
  deriving DecidableEq, Repr

/-- `AppError`'s `Display` rendering (`#[error(...)]` attributes in
`src/error.rs`): `e.to_string()`. -/
def AppError.message : AppError → String
  | .connection m => "Connection error: " ++ m
  | .auth m => "Authentication failed: " ++ m

/-- Which authentication requests `run_session` sends to the server, in
order. -/
inductive AuthAttempt
  | publickeyAttempt
  | passwordAttempt
  deriving DecidableEq, Repr

/-- The environment of the authentication phase: the key store /
`russh_keys::load_secret_key` outcome (the key pair value and the
passphrase handling are abstracted into this single `Except`), and the
server's verdicts for `authenticate_publickey` and
`authenticate_password` (`Ok(bool)` is the server's accept / clean-reject
answer; `Err` is a transport or protocol error). -/
structure AuthEnv where
  keyLoad : Except String Unit
  pkAuth : Except String Bool
  pwAuth : String → Except String Bool

/-- The `match profile.auth_method` block of `run_session`
(`src/ssh/session.rs` lines 59–107), plus the list of authentication
requests actually sent. -/
def authenticate (method : AuthMethod) (key_pair_id : Option String)
    (password : Option String) (env : AuthEnv) :
    Except AppError Bool × List AuthAttempt :=
  match method with
  | .password =>
    match password with
    | none => (.error (.auth "Password required"), [])
    | some pw => ((env.pwAuth pw).mapError AppError.auth, [.passwordAttempt])
  | .publicKey =>
    match key_pair_id with
    | none => (.error (.auth "No key pair selected"), [])
    | some _ =>
      match env.keyLoad with
      | .error e => (.error (.auth e), [])
      | .ok _ => (env.pkAuth.mapError AppError.auth, [.publickeyAttempt])
  | .both =>
    match key_pair_id with
    | none => (.error (.auth "No key pair selected"), [])
    | some _ =>
      match env.keyLoad with
      | .error e => (.error (.auth e), [])
      | .ok _ =>
        match env.pkAuth with
        | .error e => (.error (.auth e), [.publickeyAttempt])
        | .ok true => (.ok true, [.publickeyAttempt])
        | .ok false =>
          match password with
          | none =>
            (.error (.auth "Password required for fallback"), [.publickeyAttempt])
          | some pw =>
            ((env.pwAuth pw).mapError AppError.auth,
              [.publickeyAttempt, .passwordAttempt])

/-! ### Session task (`src/ssh/session.rs`, `spawn_session` and
`run_session`) -/

/-- The slice of `TunnelConfig` the session code reads. -/
structure TunnelCfg where
  enabled : Bool
  deriving DecidableEq, Repr

/-- The slice of `ConnectionProfile` the session code reads. -/
structure ConnectionProfile where
  hostname : String
  port : Nat
  username : String
  auth_method : AuthMethod
  key_pair_id : Option String
  tunnels : List TunnelCfg

/-- Events emitted by the session task (`SshEvent` in `src/app.rs`;
the tunnel events are emitted by the separately spawned tunnel tasks and
the host-key event by the handler, so they do not appear in this task's
trace). -/
inductive SshEvent
  | connected
  | dataEvent (bytes : List Nat)
  | disconnected (reason : Option String)
  | errorEvent (msg : String)
  deriving DecidableEq, Repr

def isErrorEvent : SshEvent → Bool
  | .errorEvent _ => true
  | _ => false

/-- SSH wire requests issued by `run_session` after authentication. -/
inductive WireRequest
  | openSession
  | requestPty (term : String) (cols rows : Nat)
  | requestShell
  deriving DecidableEq, Repr

/-- Environment of the connection/setup phase: the oracle outcomes of
`client::connect`, the authentication environment, and the results of
`channel_open_session`, `request_pty`, `request_shell`. -/
structure SessionEnv where
  connect : Except String Unit
  auth : AuthEnv
  channelOpen : Except String Unit
  ptyReq : Except String Unit
  shellReq : Except String Unit

/-- One iteration of the `tokio::select!` main loop: which arm fires and
how the awaited operation turns out.  `cmdDisconnect` also models the
command channel being closed (`Err(_)` on `recv`, handled identically). -/
inductive LoopStep
  | cmdSendData (write : Except String Unit)
  | cmdResize (change : Except String Unit)
  | cmdStartTunnel
  | cmdStopTunnel
  | cmdDisconnect (disconnect : Except String Unit)
  | chanData (bytes : List Nat)
  | chanExitStatus (code : Nat)
  | chanEof
  | chanOther

/-- Whether the task has returned, and how. -/
inductive SessionOutcome
  | finished (result : Except AppError Unit)
  | running

/-- The main loop of `run_session` (lines 142–187) over a finite script of
select-arm firings; returns the emitted events and the outcome
(`running` when the script ends with the loop still alive). -/
def sessionLoop : List LoopStep → List SshEvent × SessionOutcome
  | [] => ([], .running)
  | .cmdSendData w :: rest =>
    match w with
    | .ok _ => sessionLoop rest
    | .error e => ([], .finished (.error (.connection e)))
  | .cmdResize w :: rest =>
    match w with
    | .ok _ => sessionLoop rest
    | .error e => ([], .finished (.error (.connection e)))
  | .cmdStartTunnel :: rest => sessionLoop rest
  | .cmdStopTunnel :: rest => sessionLoop rest
  | .cmdDisconnect d :: _rest =>
    match d with
    | .ok _ => ([.disconnected none], .finished (.ok ()))
    | .error e => ([], .finished (.error (.connection e)))
  | .chanData bs :: rest =>
    (.dataEvent bs :: (sessionLoop rest).1, (sessionLoop rest).2)
  | .chanExitStatus _ :: rest => sessionLoop rest
  | .chanEof :: _rest => ([.disconnected none], .finished (.ok ()))
  | .chanOther :: rest => sessionLoop rest

/-- Result of one `run_session` execution: emitted events, wire requests
issued after authentication, tunnels started, and the outcome. -/
structure RunResult where
  events : List SshEvent
  requests : List WireRequest
  started : List TunnelCfg
  outcome : SessionOutcome

/-- `run_session` (`src/ssh/session.rs` lines 37–188).  The
`key_passphrase` argument of the Rust function only feeds
`load_secret_key`, which is abstracted into `env.auth.keyLoad`. -/
def run_session (profile : ConnectionProfile) (password : Option String)
    (env : SessionEnv) (script : List LoopStep) : RunResult :=
  match env.connect with
  | .error e => ⟨[], [], [], .finished (.error (.connection e))⟩
  | .ok _ =>
    match authenticate profile.auth_method profile.key_pair_id password env.auth with
    | (.error e, _) => ⟨[], [], [], .finished (.error e)⟩
    | (.ok authenticated, _) =>
      if !authenticated then
        ⟨[], [], [], .finished (.error (.auth "Authentication failed"))⟩
      else
        match env.channelOpen with
        | .error e =>
          ⟨[.connected], [.openSession], [], .finished (.error (.connection e))⟩
        | .ok _ =>
          match env.ptyReq with
          | .error e =>
            ⟨[.connected], [.openSession, .requestPty "xterm-256color" 80 24], [],
              .finished (.error (.connection e))⟩
          | .ok _ =>
            match env.shellReq with
            | .error e =>
              ⟨[.connected],
                [.openSession, .requestPty "xterm-256color" 80 24, .requestShell],
                [], .finished (.error (.connection e))⟩
            | .ok _ =>
              ⟨.connected :: (sessionLoop script).1,
                [.openSession, .requestPty "xterm-256color" 80 24, .requestShell],
                profile.tunnels.filter (fun tc => tc.enabled),
                (sessionLoop script).2⟩

/-- `spawn_session` (lines 16–35): run the task; when it returns `Err(e)`
append `Error(e.to_string())` then `Disconnected(Some(e.to_string()))` to
the emitted events. -/
def spawn_session (profile : ConnectionProfile) (password : Option String)
    (env : SessionEnv) (script : List LoopStep) : List SshEvent :=
  match (run_session profile password env script).outcome with
  | .finished (.error e) =>
    (run_session profile password env script).events
      ++ [.errorEvent e.message, .disconnected (some e.message)]
  | _ => (run_session profile password env script).events

/-! ### SFTP engine command loop (`src/ssh/sftp.rs`, `run_sftp_session`
lines 121–200) -/

/-- `SftpConflictDirection`, lines 24–27. -/
inductive SftpConflictDirection
  | uploadDir
  | downloadDir
  deriving DecidableEq, Repr

/-- `SftpEvent` (lines 42–55); the response channel inside
`TransferConflict` is modelled separately (see `ask_transfer_conflict`). -/
inductive SftpEvent
  | connected
  | dirListing (path : String) (entries : List SftpEntry)
  | transferProgress (name : String) (bytes total : Nat)
  | transferComplete (name : String)
  | transferConflict (path : String) (direction : SftpConflictDirection) (is_dir : Bool)
  | errorEvent (msg : String)
  | disconnected
  deriving DecidableEq, Repr

/-- One received `SftpCommand` together with the oracle outcome of its
execution.  `listDir` carries the server's `read_dir` answer; the
recursive transfer handlers (`upload`, `download`) emit their progress
and conflict events inline and return `Result<(), String>`, so they are
carried as the inner event list plus the result; `mkDir`, `removeEntry`
and `rename` carry their `Result`. -/
inductive SftpScriptItem
  | listDir (path : String) (result : Except String (List RawEntry))
  | upload (innerEvents : List SftpEvent) (result : Except String Unit)
  | download (innerEvents : List SftpEvent) (result : Except String Unit)
  | mkDir (path : String) (result : Except String Unit)
  | removeEntry (path : String) (result : Except String Unit)
  | rename (src dst : String) (result : Except String Unit)
  | disconnectCmd

/-- The events one command's arm of the `while let Ok(cmd)` loop emits
(lines 122–195). -/
def sftpCommandEvents : SftpScriptItem → List SftpEvent
  | .listDir path (.ok entries) => [.dirListing path (listEntries entries)]
  | .listDir path (.error e) =>
    [.errorEvent ("Failed to list " ++ path ++ ": " ++ e)]
  | .upload evs (.ok _) => evs
  | .upload evs (.error msg) => evs ++ [.errorEvent msg]
  | .download evs (.ok _) => evs
  | .download evs (.error msg) => evs ++ [.errorEvent msg]
  | .mkDir _ (.ok _) => []
  | .mkDir _ (.error msg) => [.errorEvent msg]
  | .removeEntry _ (.ok _) => []
  | .removeEntry _ (.error msg) => [.errorEvent msg]
  | .rename _ _ (.ok _) => []
  | .rename f t (.error e) =>
    [.errorEvent ("Failed to rename " ++ f ++ " -> " ++ t ++ ": " ++ e)]
  | .disconnectCmd => []

def isDisconnectCmd : SftpScriptItem → Bool
  | .disconnectCmd => true
  | _ => false

/-- The command loop of `run_sftp_session` (lines 121–199): process
commands until an explicit `Disconnect` command or the end of the script
(the command channel closing), emitting `Disconnected` in both cases. -/
def sftpCommandLoop : List SftpScriptItem → List SftpEvent
  | [] => [.disconnected]
  | .disconnectCmd :: _ => [.disconnected]
  | item :: rest => sftpCommandEvents item ++ sftpCommandLoop rest

/-! ### Upload target path (`src/ssh/sftp.rs`, `upload_entry_recursive`
file branch, lines 481–494, and `upload_file`, lines 317–390) -/

/-- `upload_file` abstracted to its control flow around the write target:
`metadata` is the server's oracle (`some is_dir` when the remote path
exists).  Returns `none` when conflict resolution is cancelled, otherwise
`some (opened?, policy', remaining responses)` where `opened? = some p`
means the remote file is opened with `CREATE|TRUNCATE|WRITE` and written
at `p`, and `opened? = none` means `KeepExisting` skipped the write. -/
def upload_file_target (metadata : String → Option Bool)
    (remote_file : String) (policy : ConflictPolicy)
    (responses : List SftpConflictResponse) :
    Option (Option String × ConflictPolicy × List SftpConflictResponse) :=
  match metadata remote_file with
  | some _is_dir =>
    match ask_transfer_conflict policy responses with
    | none => none
    | some (decision, policy', rest, _emitted) =>
      match decision with
      | .keepExisting => some (none, policy', rest)
      | .replaceWithIncoming => some (some remote_file, policy', rest)
  | none => some (some remote_file, policy, responses)

/-- The `else` (local source is a file) branch of `upload_entry_recursive`
(lines 481–494): compute the remote file path from the destination string
and the local file name (`local.file_name()`, `none` when the local path
has no file name), then run `upload_file` at it. -/
def upload_entry_file_branch (metadata : String → Option Bool)
    (local_file_name : Option String) (remote : String)
    (policy : ConflictPolicy) (responses : List SftpConflictResponse) :
    Option (Option String × ConflictPolicy × List SftpConflictResponse) :=
  let remote_file :=
    if endsWithSlash remote then
      let base := trimEndSlashes remote
      let file_name := local_file_name.getD "unknown"
      join_remote_path base file_name
    else remote
  upload_file_target metadata remote_file policy responses

/-! ### Remote directory creation (`src/ssh/sftp.rs`, `ensure_remote_dir`
lines 276–315) -/

/-- The remote-filesystem slice `ensure_remote_dir` reads: an association
of absolute paths to "is a directory".  `sftp.metadata` failing (the path
not existing) is modelled as absence. -/
abbrev DirFS := List (String × Bool)

def lookupFS (fs : DirFS) (p : String) : Option Bool :=
  (fs.find? (fun e => e.1 == p)).map (fun e => e.2)

def eraseFS (fs : DirFS) (p : String) : DirFS :=
  fs.filter (fun e => e.1 != p)

/-- SFTP mutation requests issued by `ensure_remote_dir`, in order. -/
inductive RemoteOp
  | createDir (p : String)
  | removeFile (p : String)
  deriving DecidableEq, Repr

/-- The per-segment loop of `ensure_remote_dir` (lines 288–312), with
`sftp.create_dir` and `sftp.remove_file` succeeding on the `DirFS` state;
returns the final state and the ordered trace of mutation requests. -/
def ensureWalk : DirFS → String → List String → DirFS × List RemoteOp
  | fs, _, [] => (fs, [])
  | fs, current, seg :: rest =>
    let cur := join_remote_path current seg
    match lookupFS fs cur with
    | some true => ensureWalk fs cur rest
    | some false =>
      let r := ensureWalk ((cur, true) :: eraseFS fs cur) cur rest
      (r.1, .removeFile cur :: .createDir cur :: r.2)
    | none =>
      let r := ensureWalk ((cur, true) :: fs) cur rest
      (r.1, .createDir cur :: r.2)

/-- `ensure_remote_dir` (lines 276–315). -/
def ensure_remote_dir (fs : DirFS) (path : String) : DirFS × List RemoteOp :=
  let normalized := trimEndSlashes path
  if normalized = "" ∨ normalized = "." ∨ normalized = "/" then (fs, [])
  else
    let start := if startsWithSlash normalized then "/" else "."
    let segs := (splitSlashes normalized).filter (fun s => s != "" && s != ".")
    ensureWalk fs start segs

/-- The successive `current` values of the walk, root to leaf. -/
def walkPaths : String → List String → List String
  | _, [] => []
  | current, seg :: rest =>
    let cur := join_remote_path current seg
    cur :: walkPaths cur rest

/-- What the walk does at one path, as a function of the *initial* state:
nothing when it is already a directory; remove-then-create when it exists
as a non-directory; create when it is missing. -/
def opsFor (fs : DirFS) (p : String) : List RemoteOp :=
  match lookupFS fs p with
  | some true => []
  | some false => [.removeFile p, .createDir p]
  | none => [.createDir p]

/-! ### Recursive removal (`src/ssh/sftp.rs`,
`remove_remote_entry_recursive` lines 695–738) -/

/-- Entry kinds of the removal model.  `file`/`dir` answer
`sftp.metadata`; the `mystery*` kinds model entries whose metadata cannot
be determined (`metadata` returns `Err`): `mfile` can be removed with
`remove_file`, `mdir` only with `remove_dir`, `mnone` with neither. -/
inductive RKind
  | file
  | dir (children : List String)
  | mfile
  | mdir
  | mnone
  deriving DecidableEq, Repr

/-- A remote tree as an association of absolute paths to entry kinds
(directories carry their child names, as `read_dir` reports them). -/
abbrev RemFS := List (String × RKind)

def lookupR (fs : RemFS) (p : String) : Option RKind :=
  (fs.find? (fun e => e.1 == p)).map (fun e => e.2)

def eraseR (fs : RemFS) (p : String) : RemFS :=
  fs.filter (fun e => e.1 != p)

/-- The prefix every path strictly below directory `p` starts with. -/
def childPrefix (p : String) : String :=
  if p = "/" then p else p ++ "/"

/-- `q` lies strictly below `p` in the remote tree. -/
def isUnder (p q : String) : Bool :=
  strPrefix (childPrefix p) q && (q != p)

def hasUnder (fs : RemFS) (p : String) : Bool :=
  fs.any (fun e => isUnder p e.1)

/-- Entry kinds that behave as files (nothing can live below them). -/
def fileKind : RKind → Bool
  | .file => true
  | .mfile => true
  | _ => false

/-- `sftp.metadata(...).is_dir()` on the model, `none` when metadata
fails. -/
def metadataR (fs : RemFS) (p : String) : Option Bool :=
  match lookupR fs p with
  | some .file => some false
  | some (.dir _) => some true
  | _ => none

/-- `sftp.read_dir(...)`: the stored child names of a directory. -/
def readDirR (fs : RemFS) (p : String) : Option (List String) :=
  match lookupR fs p with
  | some (.dir names) => some names
  | _ => none

/-- `sftp.remove_file(...)`: succeeds on plain files and on file-like
metadata-less entries. -/
def removeFileR (fs : RemFS) (p : String) : Option RemFS :=
  match lookupR fs p with
  | some .file => some (eraseR fs p)
  | some .mfile => some (eraseR fs p)
  | _ => none

/-- `sftp.remove_dir(...)`: succeeds on (metadata-less) directories with
no remaining entries below them. -/
def removeDirR (fs : RemFS) (p : String) : Option RemFS :=
  match lookupR fs p with
  | some (.dir _) => if hasUnder fs p then none else some (eraseR fs p)
  | some .mdir => if hasUnder fs p then none else some (eraseR fs p)
  | _ => none

/-- One performed removal. -/
inductive RmOp
  | rmFile (p : String)
  | rmDir (p : String)
  deriving DecidableEq, Repr

def RmOp.path : RmOp → String
  | .rmFile p => p
  | .rmDir p => p

/-- The explicit work-stack loop of `remove_remote_entry_recursive`
(lines 696–735), fueled: `none` means out of fuel; `some (.error msg)`
the surfaced error (the model keeps the message's path but abstracts the
server's error text); `some (.ok (fs, ops))` the final state with the
chronological trace of successful removals. -/
def removeLoop : Nat → RemFS → List (String × Bool) →
    Option (Except String (RemFS × List RmOp))
  | 0, _, _ => none
  | _ + 1, fs, [] => some (.ok (fs, []))
  | n + 1, fs, (current, visited) :: rest =>
    match metadataR fs current with
    | some true =>
      if visited then
        match removeDirR fs current with
        | some fs' =>
          (removeLoop n fs' rest).map (fun r =>
            r.map (fun out => (out.1, .rmDir current :: out.2)))
        | none => some (.error ("Failed to remove directory " ++ current))
      else
        match readDirR fs current with
        | some names =>
          removeLoop n fs
            (names.foldl (fun st name =>
              if name = "." ∨ name = ".." then st
              else (join_remote_path current name, false) :: st)
              ((current, true) :: rest))
        | none => some (.error ("Failed to list " ++ current))
    | some false =>
      match removeFileR fs current with
      | some fs' =>
        (removeLoop n fs' rest).map (fun r =>
          r.map (fun out => (out.1, .rmFile current :: out.2)))
      | none => some (.error ("Failed to remove file " ++ current))
    | none =>
      match removeFileR fs current with
      | some fs' =>
        (removeLoop n fs' rest).map (fun r =>
          r.map (fun out => (out.1, .rmFile current :: out.2)))
      | none =>
        match removeDirR fs current with
        | some fs' =>
          (removeLoop n fs' rest).map (fun r =>
            r.map (fun out => (out.1, .rmDir current :: out.2)))
        | none => some (.error ("Failed to remove " ++ current))

/-- `remove_remote_entry_recursive` (lines 695–738). -/
def remove_remote_entry_recursive (fuel : Nat) (fs : RemFS) (path : String) :
    Option (Except String (RemFS × List RmOp)) :=
  removeLoop fuel fs [(path, false)]

/-- Well-formedness of a remote tree: nothing lives strictly below a
file-like entry.  (No condition on directories is needed: `remove_dir`'s
emptiness check enforces coverage dynamically.) -/
def WfFS (fs : RemFS) : Prop :=
  ∀ e ∈ fs, fileKind e.2 = true →
    ∀ q ∈ fs.map (fun x => x.1), isUnder e.1 q = false

/-! ## Lemmas and theorems -/

lemma dropWhile_dropWhile {α} (p : α → Bool) (l : List α) :
    (l.dropWhile p).dropWhile p = l.dropWhile p := by
  induction l with
  | nil => rfl
  | cons a l ih =>
    by_cases h : p a
    · simpa [List.dropWhile_cons, h] using ih
    · simp [List.dropWhile_cons, h]

lemma toList_mk (l : List Char) : (String.mk l).toList = l := rfl

/-- `trim_end_matches('/')` is idempotent. -/
lemma trimEndSlashes_idem (s : String) :
    trimEndSlashes (trimEndSlashes s) = trimEndSlashes s := by
  unfold trimEndSlashes
  rw [toList_mk, List.reverse_reverse, dropWhile_dropWhile]

/-! ### C6: remote path algebra -/

/-- C6 (amended): joining with the literal root `"/"` yields `"/" ++ name`
(the separator is not doubled); joining onto a nonempty base that does not
end in `'/'` inserts exactly one `'/'` between base and name; a base that
already ends in `'/'` has the name appended directly (keeping exactly the
base's existing separators); the empty base yields the name alone; and
`remote_basename` is invariant under stripping trailing `'/'` separators
and returns `"/"` for the root path. -/
theorem c6_path_algebra :
    (∀ name, join_remote_path "/" name = "/" ++ name)
    ∧ (∀ base name, base ≠ "" → base ≠ "/" → endsWithSlash base = false →
        join_remote_path base name = base ++ "/" ++ name)
    ∧ (∀ base name, base ≠ "/" → endsWithSlash base = true →
        join_remote_path base name = base ++ name)
    ∧ (∀ name, join_remote_path "" name = name)
    ∧ (∀ path, remote_basename path = remote_basename (trimEndSlashes path))
    ∧ remote_basename "/" = "/" := by
  refine ⟨?_, ?_, ?_, ?_, ?_, ?_⟩
  · intro name; simp [join_remote_path]
  · intro base name h1 h2 h3; simp [join_remote_path, h1, h2, h3]
  · intro base name h1 h2; simp [join_remote_path, h1, h2]
  · intro name; simp [join_remote_path, endsWithSlash]
  · intro path
    simp only [remote_basename, trimEndSlashes_idem]
  · decide

/-- C6 witness: the general statements of `c6_path_algebra` evaluated at
concrete inputs. -/
theorem c6_path_algebra_witness :
    join_remote_path "a" "b" = "a" ++ "/" ++ "b"
    ∧ join_remote_path "a/" "b" = "a/" ++ "b"
    ∧ remote_basename "x/y//" = remote_basename (trimEndSlashes "x/y//") :=
  ⟨c6_path_algebra.2.1 "a" "b" (by decide) (by decide) (by decide),
   c6_path_algebra.2.2.1 "a/" "b" (by decide) (by decide),
   c6_path_algebra.2.2.2.2.1 "x/y//"⟩

/-- C6 counterexample: the claim quantifies over *every* base string, but
with the empty base `join_remote_path` returns the bare name, which
contains no `'/'` separator at all — the base and name are not "joined by
exactly one `'/'` separator". -/
theorem c6_counterexample :
    join_remote_path "" "x" = "x" ∧ ("x".toList.contains '/') = false := by
  exact ⟨by decide, by decide⟩

/-! ### C5: directory listing -/

lemma then_ne_gt {o p : Ordering} :
    o.then p ≠ .gt ↔ o = .lt ∨ (o = .eq ∧ p ≠ .gt) := by
  cases o <;> simp [Ordering.then]

lemma lexCmp_total (a b : List Char) : lexCmp a b ≠ .gt ∨ lexCmp b a ≠ .gt := by
  induction a generalizing b with
  | nil => left; cases b <;> simp [lexCmp]
  | cons x xs ih =>
    cases b with
    | nil => right; simp [lexCmp]
    | cons y ys =>
      rcases Nat.lt_trichotomy x.toNat y.toNat with h | h | h
      · left
        simp [lexCmp, then_ne_gt, Nat.compare_eq_lt.2 h]
      · rcases ih ys with h' | h'
        · left
          simp only [lexCmp, then_ne_gt, Nat.compare_eq_eq.2 h]
          exact Or.inr ⟨trivial, h'⟩
        · right
          simp only [lexCmp, then_ne_gt, Nat.compare_eq_eq.2 h.symm]
          exact Or.inr ⟨trivial, h'⟩
      · right
        simp [lexCmp, then_ne_gt, Nat.compare_eq_lt.2 h]

lemma lexCmp_trans {a b c : List Char}
    (h1 : lexCmp a b ≠ .gt) (h2 : lexCmp b c ≠ .gt) : lexCmp a c ≠ .gt := by
  induction a generalizing b c with
  | nil => cases c <;> simp [lexCmp]
  | cons x xs ih =>
    cases b with
    | nil => simp [lexCmp] at h1
    | cons y ys =>
      cases c with
      | nil => simp [lexCmp] at h2
      | cons z zs =>
        rw [lexCmp, then_ne_gt] at h1 h2 ⊢
        rcases h1 with h1 | ⟨h1e, h1t⟩
        · rcases h2 with h2 | ⟨h2e, h2t⟩
          · exact Or.inl (Nat.compare_eq_lt.2
              (Nat.lt_trans (Nat.compare_eq_lt.1 h1) (Nat.compare_eq_lt.1 h2)))
          · exact Or.inl (Nat.compare_eq_eq.1 h2e ▸ h1)
        · rcases h2 with h2 | ⟨h2e, h2t⟩
          · exact Or.inl (Nat.compare_eq_eq.1 h1e ▸ h2)
          · exact Or.inr ⟨Nat.compare_eq_eq.1 h1e ▸ h2e, ih h1t h2t⟩

instance : IsTotal SftpEntry entryLE := by
  constructor
  intro a b
  unfold entryLE entryCmp
  rcases lexCmp_total (lowerStr a.name) (lowerStr b.name) with h | h <;>
    cases ha : a.is_dir <;> cases hb : b.is_dir <;>
      simp [ha, hb, boolCmp, Ordering.then, h]

instance : IsTrans SftpEntry entryLE := by
  constructor
  intro a b c hab hbc
  unfold entryLE entryCmp at hab hbc ⊢
  cases ha : a.is_dir <;> cases hb : b.is_dir <;> cases hc : c.is_dir <;>
    simp only [ha, hb, hc, boolCmp, Ordering.then] at hab hbc ⊢ <;>
    first
      | exact lexCmp_trans hab hbc
      | exact absurd rfl hab
      | exact absurd rfl hbc
      | decide

lemma sortEntries_sorted (l : List SftpEntry) :
    (sortEntries l).Sorted entryLE :=
  List.sorted_insertionSort entryLE l

lemma mem_sortEntries {e : SftpEntry} {l : List SftpEntry} :
    e ∈ sortEntries l ↔ e ∈ l :=
  (List.perm_insertionSort entryLE l).mem_iff

/-- C5: entries named `.` and `..` are excluded from the listing, and the
emitted list is sorted directories-first, within each group ascending by
case-insensitive name (`lexCmp` on the lowered names never `Greater` going
left to right); the spec's concrete example evaluates as stated. -/
theorem c5_listing :
    (∀ (entries : List RawEntry) (e : SftpEntry), e ∈ listEntries entries →
      e.name ≠ "." ∧ e.name ≠ "..")
    ∧ (∀ (entries : List RawEntry) (i j : Fin (listEntries entries).length),
        i < j →
        (((listEntries entries).get j).is_dir = true →
          ((listEntries entries).get i).is_dir = true)
        ∧ (((listEntries entries).get i).is_dir
              = ((listEntries entries).get j).is_dir →
            lexCmp (lowerStr ((listEntries entries).get i).name)
              (lowerStr ((listEntries entries).get j).name) ≠ .gt))
    ∧ listEntries
        [⟨"b.txt", false, none, none⟩, ⟨"A", true, none, none⟩,
         ⟨"a.txt", false, none, none⟩]
        = [⟨"A", true, 0, none⟩, ⟨"a.txt", false, 0, none⟩,
           ⟨"b.txt", false, 0, none⟩] := by
  refine ⟨?_, ?_, by decide⟩
  · intro entries e he
    rw [listEntries, mem_sortEntries] at he
    obtain ⟨r, _hmem, hmk⟩ := List.mem_filterMap.1 he
    by_cases h : r.file_name = "." ∨ r.file_name = ".."
    · simp [h] at hmk
    · rw [if_neg h] at hmk
      push_neg at h
      cases hmk
      exact ⟨by simpa using h.1, by simpa using h.2⟩
  · intro entries i j hij
    have hs : (listEntries entries).Sorted entryLE := by
      rw [listEntries]; exact sortEntries_sorted _
    have hle := hs.rel_get_of_lt hij
    unfold entryLE entryCmp at hle
    constructor
    · intro hj
      by_contra hi
      simp only [Bool.not_eq_true] at hi
      rw [hj, hi] at hle
      simp [boolCmp, Ordering.then] at hle
    · intro hsame
      rw [hsame] at hle
      cases hj : ((listEntries entries).get j).is_dir <;>
        rw [hj] at hle <;> simpa [boolCmp, Ordering.then] using hle

/-- C5 witness: `c5_listing` applied to the spec's concrete example. -/
theorem c5_listing_witness :
    ((⟨"A", true, 0, none⟩ : SftpEntry).name ≠ "."
      ∧ (⟨"A", true, 0, none⟩ : SftpEntry).name ≠ "..")
    ∧ (((listEntries
          [⟨"b.txt", false, none, none⟩, ⟨"A", true, none, none⟩,
           ⟨"a.txt", false, none, none⟩]).get ⟨1, by decide⟩).is_dir = true →
        ((listEntries
          [⟨"b.txt", false, none, none⟩, ⟨"A", true, none, none⟩,
           ⟨"a.txt", false, none, none⟩]).get ⟨0, by decide⟩).is_dir = true) :=
  ⟨c5_listing.1
      [⟨"b.txt", false, none, none⟩, ⟨"A", true, none, none⟩,
       ⟨"a.txt", false, none, none⟩]
      ⟨"A", true, 0, none⟩ (by decide),
   (c5_listing.2.1
      [⟨"b.txt", false, none, none⟩, ⟨"A", true, none, none⟩,
       ⟨"a.txt", false, none, none⟩]
      ⟨0, by decide⟩ ⟨1, by decide⟩ (by decide)).1⟩

/-! ### C4: apply-to-all conflict resolution -/

/-- Once `apply_all` is set, every later conflict in the transfer is
decided by the memoized decision and emits no `TransferConflict` event. -/
lemma runConflicts_applyAll (d : SftpConflictDecision)
    (responses : List SftpConflictResponse) (n : Nat) :
    runConflicts { apply_all := some d } responses n
      = some (List.replicate n (false, d)) := by
  induction n with
  | zero => rfl
  | succ n ih =>
    simp [runConflicts, ask_transfer_conflict, ih, List.replicate_succ]

/-- C4: in one transfer, while the UI answers without `apply_to_all` every
conflict prompts (emits a `TransferConflict` event); as soon as a response
flagged `apply_to_all = true` arrives, its decision is applied to every
subsequent conflict of that transfer and no further `TransferConflict`
event is emitted. -/
theorem c4_apply_to_all
    (pre : List SftpConflictResponse) (r : SftpConflictResponse)
    (post : List SftpConflictResponse) (n : Nat)
    (hpre : ∀ x ∈ pre, x.apply_to_all = false)
    (hr : r.apply_to_all = true)
    (hn : pre.length + 1 ≤ n) :
    runConflicts { apply_all := none } (pre ++ r :: post) n =
      some (((pre ++ [r]).map fun x => (true, x.decision))
        ++ List.replicate (n - (pre.length + 1)) (false, r.decision)) := by
  induction pre generalizing n with
  | nil =>
    obtain ⟨m, rfl⟩ : ∃ m, n = m + 1 := ⟨n - 1, by omega⟩
    simp [runConflicts, ask_transfer_conflict, hr, runConflicts_applyAll]
  | cons x pre ih =>
    obtain ⟨m, rfl⟩ : ∃ m, n = m + 1 := ⟨n - 1, by omega⟩
    have hx : x.apply_to_all = false := hpre x (List.mem_cons_self x pre)
    have hm : pre.length + 1 ≤ m := by
      simp only [List.length_cons] at hn; omega
    have hrec := ih m (fun y hy => hpre y (List.mem_cons_of_mem x hy)) hm
    have hstep : runConflicts { apply_all := none } ((x :: pre) ++ r :: post) (m + 1)
        = (runConflicts { apply_all := none } (pre ++ r :: post) m).map
            (fun outs => (true, x.decision) :: outs) := by
      simp [runConflicts, ask_transfer_conflict, hx]
    rw [hstep, hrec, Option.map_some']
    have harith : m + 1 - ((x :: pre).length + 1) = m - (pre.length + 1) := by
      simp only [List.length_cons]; omega
    rw [harith]
    simp

/-- C4 witness: one declined-without-apply-to-all conflict, then an
apply-to-all response, in a transfer with four conflict sites. -/
theorem c4_apply_to_all_witness :
    runConflicts { apply_all := none }
      ([(⟨.keepExisting, false⟩ : SftpConflictResponse)]
        ++ (⟨.replaceWithIncoming, true⟩ : SftpConflictResponse) :: []) 4 =
      some ((([(⟨.keepExisting, false⟩ : SftpConflictResponse)]
            ++ [(⟨.replaceWithIncoming, true⟩ : SftpConflictResponse)]).map
            fun x => (true, x.decision))
        ++ List.replicate (4 - ([(⟨.keepExisting, false⟩ : SftpConflictResponse)].length + 1))
            (false, SftpConflictDecision.replaceWithIncoming)) :=
  c4_apply_to_all [⟨.keepExisting, false⟩] ⟨.replaceWithIncoming, true⟩ [] 4
    (by decide) rfl (by decide)

/-! ### C1: Both-authentication -/

/-- C1: with `auth_method = Both`, (i) the password is never attempted
before the public key (the attempt trace is `[]`, `[publickey]` or
`[publickey, password]`); (ii) on a clean public-key rejection
(`Ok(false)`) the password fallback runs, failing with an Auth error when
no password was supplied; (iii) if the public key is accepted the result
is success after the public-key attempt alone, independent of the
password (never consulted); (iv) if the public-key attempt raises an
error, it propagates as an Auth error with no password fallback. -/
theorem c1_both_auth :
    (∀ (kid : String) (password : Option String) (env : AuthEnv),
      (authenticate .both (some kid) password env).2 = []
      ∨ (authenticate .both (some kid) password env).2 = [.publickeyAttempt]
      ∨ (authenticate .both (some kid) password env).2
          = [.publickeyAttempt, .passwordAttempt])
    ∧ (∀ (kid : String) (env : AuthEnv),
        env.keyLoad = .ok () → env.pkAuth = .ok false →
        authenticate .both (some kid) none env
          = (.error (.auth "Password required for fallback"), [.publickeyAttempt])
        ∧ ∀ pw, authenticate .both (some kid) (some pw) env
            = ((env.pwAuth pw).mapError AppError.auth,
                [.publickeyAttempt, .passwordAttempt]))
    ∧ (∀ (kid : String) (env : AuthEnv),
        env.keyLoad = .ok () → env.pkAuth = .ok true →
        ∀ password, authenticate .both (some kid) password env
          = (.ok true, [.publickeyAttempt]))
    ∧ (∀ (kid : String) (env : AuthEnv) (e : String),
        env.keyLoad = .ok () → env.pkAuth = .error e →
        ∀ password, authenticate .both (some kid) password env
          = (.error (.auth e), [.publickeyAttempt])) := by
  refine ⟨?_, ?_, ?_, ?_⟩
  · intro kid password env
    rcases hk : env.keyLoad with e | u
    · simp [authenticate, hk]
    · rcases hp : env.pkAuth with e | b
      · simp [authenticate, hk, hp]
      · cases b
        · cases password with
          | none => simp [authenticate, hk, hp]
          | some pw => simp [authenticate, hk, hp]
        · simp [authenticate, hk, hp]
  · intro kid env hk hp
    exact ⟨by simp [authenticate, hk, hp], fun pw => by simp [authenticate, hk, hp]⟩
  · intro kid env hk hp password
    simp [authenticate, hk, hp]
  · intro kid env e hk hp password
    simp [authenticate, hk, hp]

/-- C1 witness: `c1_both_auth` applied to concrete environments — a clean
rejection with no password supplied, and an accepted public key. -/
theorem c1_both_auth_witness :
    authenticate .both (some "k") none ⟨.ok (), .ok false, fun _ => .ok true⟩
      = (.error (.auth "Password required for fallback"), [.publickeyAttempt])
    ∧ authenticate .both (some "k") (some "pw")
        ⟨.ok (), .ok true, fun _ => .ok false⟩
      = (.ok true, [.publickeyAttempt]) :=
  ⟨(c1_both_auth.2.1 "k" ⟨.ok (), .ok false, fun _ => .ok true⟩ rfl rfl).1,
   c1_both_auth.2.2.1 "k" ⟨.ok (), .ok true, fun _ => .ok false⟩ rfl rfl (some "pw")⟩

/-! ### C7: failure semantics of the session task -/

/-- The main loop itself never emits an `Error` event (errors propagate as
the task's return value and are reported by `spawn_session`). -/
lemma sessionLoop_no_error (script : List LoopStep) :
    ∀ ev ∈ (sessionLoop script).1, isErrorEvent ev = false := by
  induction script with
  | nil => simp [sessionLoop]
  | cons step rest ih =>
    cases step with
    | cmdSendData w =>
      rcases w with e | u
      · simp [sessionLoop]
      · simpa [sessionLoop] using ih
    | cmdResize w =>
      rcases w with e | u
      · simp [sessionLoop]
      · simpa [sessionLoop] using ih
    | cmdStartTunnel => simpa [sessionLoop] using ih
    | cmdStopTunnel => simpa [sessionLoop] using ih
    | cmdDisconnect d => rcases d with e | u <;> simp [sessionLoop, isErrorEvent]
    | chanData bs =>
      intro ev hev
      simp only [sessionLoop] at hev
      rcases List.mem_cons.1 hev with h | h
      · rw [h]; rfl
      · exact ih ev h
    | chanExitStatus c => simpa [sessionLoop] using ih
    | chanEof => simp [sessionLoop, isErrorEvent]
    | chanOther => simpa [sessionLoop] using ih

/-- `run_session` itself never emits an `Error` event. -/
lemma run_session_no_error (profile : ConnectionProfile)
    (password : Option String) (env : SessionEnv) (script : List LoopStep) :
    ∀ ev ∈ (run_session profile password env script).events,
      isErrorEvent ev = false := by
  unfold run_session
  rcases hc : env.connect with e | u
  · simp
  · rcases hA : authenticate profile.auth_method profile.key_pair_id password env.auth
      with ⟨res, tr⟩
    rcases res with e | b
    · simp
    · cases b
      · simp
      · rcases hco : env.channelOpen with e | u
        · simp [isErrorEvent]
        · rcases hpty : env.ptyReq with e | u
          · simp [isErrorEvent]
          · rcases hsh : env.shellReq with e | u
            · simp [isErrorEvent]
            · intro ev hev
              rcases List.mem_cons.1 hev with h | h
              · rw [h]; rfl
              · exact sessionLoop_no_error script ev h

/-- C7: (i) whenever the session task ends with an error `e`, the emitted
trace is the task's own events followed by exactly `Error(e.to_string())`
then `Disconnected(Some(e.to_string()))` — the same cause — and the whole
trace contains exactly one `Error` event; (ii) if authentication does not
succeed, no `Connected` event is ever emitted; (iii) wrong-password
scenario: with `Password` auth and the server cleanly rejecting the
password, the trace is exactly `[Error(..), Disconnected(Some(..))]` with
no `Connected`. -/
theorem c7_failure_semantics :
    (∀ profile password env script e,
      (run_session profile password env script).outcome = .finished (.error e) →
      spawn_session profile password env script
        = (run_session profile password env script).events
          ++ [.errorEvent e.message, .disconnected (some e.message)]
      ∧ (spawn_session profile password env script).countP isErrorEvent = 1)
    ∧ (∀ profile password env script,
        (authenticate profile.auth_method profile.key_pair_id password env.auth).1
          ≠ .ok true →
        SshEvent.connected ∉ spawn_session profile password env script)
    ∧ (∀ profile password env script pw,
        profile.auth_method = .password → password = some pw →
        env.auth.pwAuth pw = .ok false → env.connect = .ok () →
        spawn_session profile password env script
          = [.errorEvent "Authentication failed: Authentication failed",
             .disconnected (some "Authentication failed: Authentication failed")]
        ∧ SshEvent.connected ∉ spawn_session profile password env script) := by
  have hmain : ∀ profile password env script e,
      (run_session profile password env script).outcome = .finished (.error e) →
      spawn_session profile password env script
        = (run_session profile password env script).events
          ++ [.errorEvent e.message, .disconnected (some e.message)]
      ∧ (spawn_session profile password env script).countP isErrorEvent = 1 := by
    intro profile password env script e h
    have heq : spawn_session profile password env script
        = (run_session profile password env script).events
          ++ [.errorEvent e.message, .disconnected (some e.message)] := by
      unfold spawn_session
      rw [h]
    refine ⟨heq, ?_⟩
    rw [heq, List.countP_append]
    have h0 : (run_session profile password env script).events.countP isErrorEvent
        = 0 :=
      List.countP_eq_zero.2 (by
        intro ev hev
        simp [run_session_no_error profile password env script ev hev])
    rw [h0]
    simp [List.countP_cons, isErrorEvent]
  have hnoconn : ∀ profile password env script,
      (authenticate profile.auth_method profile.key_pair_id password env.auth).1
        ≠ .ok true →
      SshEvent.connected ∉ spawn_session profile password env script := by
    intro profile password env script hne
    unfold spawn_session run_session
    rcases hc : env.connect with e | u
    · simp
    · rcases hA : authenticate profile.auth_method profile.key_pair_id password env.auth
        with ⟨res, tr⟩
      rcases res with e | b
      · simp
      · cases b
        · simp
        · exact absurd (by rw [hA]) hne
  refine ⟨hmain, hnoconn, ?_⟩
  intro profile password env script pw hm hpw hreject hconn
  have hautheq :
      authenticate profile.auth_method profile.key_pair_id password env.auth
        = (.ok false, [.passwordAttempt]) := by
    rw [hm, hpw]
    show ((env.auth.pwAuth pw).mapError AppError.auth, [AuthAttempt.passwordAttempt])
        = (Except.ok false, [AuthAttempt.passwordAttempt])
    rw [hreject]
    rfl
  have houtcome : (run_session profile password env script).outcome
      = .finished (.error (.auth "Authentication failed")) := by
    unfold run_session
    rw [hconn, hautheq]
    rfl
  have hevents : (run_session profile password env script).events = [] := by
    unfold run_session
    rw [hconn, hautheq]
    rfl
  have h1 := hmain profile password env script (.auth "Authentication failed") houtcome
  have htrace : spawn_session profile password env script
      = [.errorEvent "Authentication failed: Authentication failed",
         .disconnected (some "Authentication failed: Authentication failed")] := by
    rw [h1.1, hevents]
    rfl
  refine ⟨htrace, ?_⟩
  rw [htrace]
  simp

/-- C7 witness: the wrong-password scenario at concrete inputs. -/
theorem c7_failure_semantics_witness :
    spawn_session ⟨"host", 22, "user", .password, none, []⟩ (some "wrong")
        ⟨.ok (), ⟨.ok (), .ok true, fun _ => .ok false⟩, .ok (), .ok (), .ok ()⟩ []
      = [.errorEvent "Authentication failed: Authentication failed",
         .disconnected (some "Authentication failed: Authentication failed")]
    ∧ SshEvent.connected ∉
        spawn_session ⟨"host", 22, "user", .password, none, []⟩ (some "wrong")
          ⟨.ok (), ⟨.ok (), .ok true, fun _ => .ok false⟩, .ok (), .ok (), .ok ()⟩ [] :=
  c7_failure_semantics.2.2 ⟨"host", 22, "user", .password, none, []⟩ (some "wrong")
    ⟨.ok (), ⟨.ok (), .ok true, fun _ => .ok false⟩, .ok (), .ok (), .ok ()⟩ []
    "wrong" rfl rfl rfl rfl

/-! ### C9: post-authentication channel setup -/

/-- C9 (amended): after a successful authentication the trace starts with
`Connected`, a session channel is opened, a pseudo-terminal is requested
with 80 columns × 24 rows and the fixed terminal type "xterm-256color"
(the code does not take the type from the caller), followed by an
interactive shell request. -/
theorem c9_channel_setup (profile : ConnectionProfile)
    (password : Option String) (env : SessionEnv) (script : List LoopStep)
    (hconn : env.connect = .ok ())
    (hauth : (authenticate profile.auth_method profile.key_pair_id password
        env.auth).1 = .ok true)
    (hopen : env.channelOpen = .ok ()) (hpty : env.ptyReq = .ok ())
    (hshell : env.shellReq = .ok ()) :
    (run_session profile password env script).events
      = .connected :: (sessionLoop script).1
    ∧ (run_session profile password env script).requests
      = [.openSession, .requestPty "xterm-256color" 80 24, .requestShell] := by
  rcases hA : authenticate profile.auth_method profile.key_pair_id password env.auth
    with ⟨res, tr⟩
  have hres : res = .ok true := by rw [hA] at hauth; exact hauth
  subst hres
  unfold run_session
  rw [hconn, hA, hopen, hpty, hshell]
  exact ⟨rfl, rfl⟩

/-- C9 witness: `c9_channel_setup` at concrete inputs. -/
theorem c9_channel_setup_witness :
    (run_session ⟨"host", 22, "user", .password, none, []⟩ (some "pw")
        ⟨.ok (), ⟨.ok (), .ok true, fun _ => .ok true⟩, .ok (), .ok (), .ok ()⟩
        []).events = .connected :: (sessionLoop []).1
    ∧ (run_session ⟨"host", 22, "user", .password, none, []⟩ (some "pw")
        ⟨.ok (), ⟨.ok (), .ok true, fun _ => .ok true⟩, .ok (), .ok (), .ok ()⟩
        []).requests
      = [.openSession, .requestPty "xterm-256color" 80 24, .requestShell] :=
  c9_channel_setup ⟨"host", 22, "user", .password, none, []⟩ (some "pw")
    ⟨.ok (), ⟨.ok (), .ok true, fun _ => .ok true⟩, .ok (), .ok (), .ok ()⟩ []
    rfl rfl rfl rfl rfl

/-- C9 counterexample: the claim says the pseudo-terminal's type is
"supplied by the caller", but `run_session` has no terminal-type input at
all: it always requests the constant "xterm-256color"
(`src/ssh/session.rs` line 122).  A caller whose configured terminal type
is "vt100" (cf. `default_terminal_type` in `src/config.rs`) still gets an
"xterm-256color" PTY request. -/
theorem c9_counterexample :
    (run_session ⟨"host", 22, "user", .password, none, []⟩ (some "pw")
        ⟨.ok (), ⟨.ok (), .ok true, fun _ => .ok true⟩, .ok (), .ok (), .ok ()⟩
        []).requests
      = [.openSession, .requestPty "xterm-256color" 80 24, .requestShell]
    ∧ "xterm-256color" ≠ "vt100" :=
  ⟨rfl, by decide⟩

/-! ### C8: SFTP command-loop failure semantics -/

/-- C8: (i) the loop's full trace is the per-command events of every
command before the first `Disconnect`, followed by a single trailing
`Disconnected` — so it terminates only at an explicit `Disconnect`
command or at the end of the command stream (channel closed), emitting
`Disconnected` in both cases; (ii) a non-`Disconnect` command — in
particular a failing one, whose per-command events end in
`Error(message)` — leaves the loop processing the rest of the script. -/
theorem c8_sftp_loop :
    (∀ script, sftpCommandLoop script
        = (script.takeWhile (fun item => !isDisconnectCmd item)).flatMap
            sftpCommandEvents
          ++ [.disconnected])
    ∧ (∀ item rest, isDisconnectCmd item = false →
        sftpCommandLoop (item :: rest)
          = sftpCommandEvents item ++ sftpCommandLoop rest)
    ∧ (∀ path msg rest,
        sftpCommandLoop (.mkDir path (.error msg) :: rest)
          = .errorEvent msg :: sftpCommandLoop rest) := by
  have hstep : ∀ item rest, isDisconnectCmd item = false →
      sftpCommandLoop (item :: rest)
        = sftpCommandEvents item ++ sftpCommandLoop rest := by
    intro item rest h
    cases item <;> first | rfl | (exact absurd h (by simp [isDisconnectCmd]))
  refine ⟨?_, hstep, ?_⟩
  · intro script
    induction script with
    | nil => rfl
    | cons item rest ih =>
      by_cases h : isDisconnectCmd item = true
      · cases item <;> simp_all [isDisconnectCmd, sftpCommandLoop]
      · rw [Bool.not_eq_true] at h
        rw [hstep item rest h, ih, List.takeWhile_cons_of_pos (by simp [h]),
          List.flatMap_cons, List.append_assoc]
  · intro path msg rest
    exact hstep (.mkDir path (.error msg)) rest rfl

/-- C8 witness: `c8_sftp_loop` applied to a failing `MkDir` followed by a
successful `ListDir` and a `Disconnect`. -/
theorem c8_sftp_loop_witness :
    sftpCommandLoop
        [.mkDir "/a" (.error "boom"), .listDir "/" (.ok []), .disconnectCmd]
      = sftpCommandEvents (.mkDir "/a" (.error "boom"))
        ++ sftpCommandLoop [.listDir "/" (.ok []), .disconnectCmd] :=
  c8_sftp_loop.2.1 (.mkDir "/a" (.error "boom"))
    [.listDir "/" (.ok []), .disconnectCmd] rfl

/-! ### C10: upload destination path for a file source -/

lemma upload_file_target_opened (metadata : String → Option Bool)
    (remote_file : String) (policy : ConflictPolicy)
    (responses : List SftpConflictResponse)
    (p : String) (policy' : ConflictPolicy)
    (rest : List SftpConflictResponse)
    (h : upload_file_target metadata remote_file policy responses
      = some (some p, policy', rest)) :
    p = remote_file := by
  unfold upload_file_target at h
  rcases hm : metadata remote_file with _ | b
  · rw [hm] at h
    cases h
    rfl
  · rw [hm] at h
    rcases ha : ask_transfer_conflict policy responses with _ | ⟨d, pol, rs, em⟩
    · rw [ha] at h; cases h
    · rw [ha] at h
      cases d
      · cases h
      · cases h
        rfl

/-- C10: for an `Upload` whose local source is a file, if the remote
destination ends with `'/'` the file is written at the destination with
its trailing `'/'` separators stripped, joined with the local file's name
(or the literal `"unknown"` when the local path has no file name);
otherwise the destination string itself is the write target.  Whenever a
write happens, it happens at exactly that path. -/
theorem c10_upload_target (metadata : String → Option Bool)
    (name : Option String) (remote : String) (policy : ConflictPolicy)
    (responses : List SftpConflictResponse) :
    (endsWithSlash remote = true →
      upload_entry_file_branch metadata name remote policy responses
        = upload_file_target metadata
            (join_remote_path (trimEndSlashes remote) (name.getD "unknown"))
            policy responses)
    ∧ (endsWithSlash remote = false →
      upload_entry_file_branch metadata name remote policy responses
        = upload_file_target metadata remote policy responses)
    ∧ (∀ p policy' rest,
        upload_entry_file_branch metadata name remote policy responses
          = some (some p, policy', rest) →
        p = if endsWithSlash remote
            then join_remote_path (trimEndSlashes remote) (name.getD "unknown")
            else remote) := by
  refine ⟨?_, ?_, ?_⟩
  · intro h; simp [upload_entry_file_branch, h]
  · intro h; simp [upload_entry_file_branch, h]
  · intro p policy' rest h
    unfold upload_entry_file_branch at h
    by_cases hslash : endsWithSlash remote = true
    · rw [if_pos hslash]
      rw [hslash] at h
      simp only [if_true] at h
      exact upload_file_target_opened _ _ _ _ _ _ _ h
    · rw [if_neg hslash]
      rw [Bool.not_eq_true] at hslash
      rw [hslash] at h
      simp only [Bool.false_eq_true, if_false] at h
      exact upload_file_target_opened _ _ _ _ _ _ _ h

/-- C10 witness: uploading local file `notes.txt` to destination
`"/docs/"` writes at `"/docs/notes.txt"`; to destination `"/docs/n.txt"`
writes at `"/docs/n.txt"`. -/
theorem c10_upload_target_witness :
    upload_entry_file_branch (fun _ => none) (some "notes.txt") "/docs/"
        { apply_all := none } []
      = upload_file_target (fun _ => none)
          (join_remote_path (trimEndSlashes "/docs/")
            ((some "notes.txt").getD "unknown"))
          { apply_all := none } []
    ∧ upload_entry_file_branch (fun _ => none) (some "notes.txt") "/docs/n.txt"
        { apply_all := none } []
      = upload_file_target (fun _ => none) "/docs/n.txt"
          { apply_all := none } [] :=
  ⟨(c10_upload_target (fun _ => none) (some "notes.txt") "/docs/"
      { apply_all := none } []).1 (by decide),
   (c10_upload_target (fun _ => none) (some "notes.txt") "/docs/n.txt"
      { apply_all := none } []).2.1 (by decide)⟩

/-! ### C2: ensure_remote_dir -/

lemma length_pos_of_ne {s : String} (h : s ≠ "") : 0 < s.length := by
  rcases s with ⟨l⟩
  cases l with
  | nil => exact absurd rfl h
  | cons c cs => simp [String.length]

lemma join_remote_path_length (current : String) {seg : String} (h : seg ≠ "") :
    current.length < (join_remote_path current seg).length := by
  have hp : 0 < seg.length := length_pos_of_ne h
  have hone : ("/" : String).length = 1 := rfl
  unfold join_remote_path
  split_ifs with h1 h2 h3
  · subst h1
    rw [String.length_append]
    omega
  · rw [String.length_append]
    omega
  · subst h3
    simpa using hp
  · rw [String.length_append, String.length_append]
    omega

lemma join_remote_path_extends (current : String) {seg : String} (h : seg ≠ "") :
    ∃ r, join_remote_path current seg = current ++ r ∧ r ≠ "" := by
  unfold join_remote_path
  split_ifs with h1 h2 h3
  · exact ⟨seg, by rw [h1], h⟩
  · exact ⟨seg, rfl, h⟩
  · exact ⟨seg, by rw [h3]; simp, h⟩
  · refine ⟨"/" ++ seg, by rw [String.append_assoc], ?_⟩
    intro hc
    have hlen := congrArg String.length hc
    rw [String.length_append] at hlen
    have hone : ("/" : String).length = 1 := rfl
    have hzero : ("" : String).length = 0 := rfl
    omega

lemma walkPaths_length : ∀ (segs : List String) (current q : String),
    (∀ s ∈ segs, s ≠ "") → q ∈ walkPaths current segs →
    current.length < q.length := by
  intro segs
  induction segs with
  | nil => intro current q _ hq; simp [walkPaths] at hq
  | cons seg rest ih =>
    intro current q hne hq
    have hseg : seg ≠ "" := hne seg (List.mem_cons_self _ _)
    simp only [walkPaths] at hq
    rcases List.mem_cons.1 hq with h | h
    · subst h; exact join_remote_path_length current hseg
    · exact Nat.lt_trans (join_remote_path_length current hseg)
        (ih _ q (fun s hs => hne s (List.mem_cons_of_mem _ hs)) h)

lemma walkPaths_chain : ∀ (segs : List String) (current : String),
    (∀ s ∈ segs, s ≠ "") →
    List.Chain (fun p q => ∃ r, q = p ++ r ∧ r ≠ "") current
      (walkPaths current segs) := by
  intro segs
  induction segs with
  | nil => intro current _; exact List.Chain.nil
  | cons seg rest ih =>
    intro current hne
    have hseg : seg ≠ "" := hne seg (List.mem_cons_self _ _)
    simp only [walkPaths]
    exact List.Chain.cons (join_remote_path_extends current hseg)
      (ih _ (fun s hs => hne s (List.mem_cons_of_mem _ hs)))

lemma lookupFS_cons (e : String × Bool) (fs : DirFS) (p : String) :
    lookupFS (e :: fs) p
      = if (e.1 == p) = true then some e.2 else lookupFS fs p := by
  by_cases h : (e.1 == p) = true
  · simp [lookupFS, List.find?_cons, h]
  · rw [Bool.not_eq_true] at h
    simp [lookupFS, List.find?_cons, h]

lemma lookupFS_erase_ne (fs : DirFS) (cur p : String) (h : p ≠ cur) :
    lookupFS (eraseFS fs cur) p = lookupFS fs p := by
  induction fs with
  | nil => rfl
  | cons e fs ih =>
    by_cases hc : (e.1 != cur) = true
    · have hstep : eraseFS (e :: fs) cur = e :: eraseFS fs cur := by
        simp [eraseFS, List.filter_cons, hc]
      rw [hstep, lookupFS_cons, lookupFS_cons]
      by_cases hp : (e.1 == p) = true
      · rw [if_pos hp, if_pos hp]
      · rw [if_neg hp, if_neg hp]
        exact ih
    · have he : e.1 = cur := by simpa using hc
      rw [Bool.not_eq_true] at hc
      have hstep : eraseFS (e :: fs) cur = eraseFS fs cur := by
        simp [eraseFS, List.filter_cons, hc]
      rw [hstep, ih, lookupFS_cons,
        if_neg (by simp only [beq_iff_eq, he]; exact Ne.symm h)]

lemma flatMap_congr {α β : Type} {l : List α} {f g : α → List β}
    (h : ∀ x ∈ l, f x = g x) : l.flatMap f = l.flatMap g := by
  induction l with
  | nil => rfl
  | cons a l ih =>
    rw [List.flatMap_cons, List.flatMap_cons, h a (List.mem_cons_self _ _),
      ih (fun x hx => h x (List.mem_cons_of_mem _ hx))]

lemma ensureWalk_ops : ∀ (segs : List String) (fs : DirFS) (current : String),
    (∀ s ∈ segs, s ≠ "") →
    (ensureWalk fs current segs).2
      = (walkPaths current segs).flatMap (opsFor fs) := by
  intro segs
  induction segs with
  | nil => intro fs current _; rfl
  | cons seg rest ih =>
    intro fs current hne
    have hseg : seg ≠ "" := hne seg (List.mem_cons_self _ _)
    have hrest : ∀ s ∈ rest, s ≠ "" :=
      fun s hs => hne s (List.mem_cons_of_mem _ hs)
    have hlater : ∀ q ∈ walkPaths (join_remote_path current seg) rest,
        q ≠ join_remote_path current seg := by
      intro q hq hc
      have := walkPaths_length rest _ q hrest hq
      rw [hc] at this
      omega
    rcases hl : lookupFS fs (join_remote_path current seg) with _ | b
    · have hagree : ∀ q ∈ walkPaths (join_remote_path current seg) rest,
          opsFor ((join_remote_path current seg, true) :: fs) q = opsFor fs q := by
        intro q hq
        unfold opsFor
        rw [lookupFS_cons,
          if_neg (by simp only [beq_iff_eq]; exact fun hh => hlater q hq hh.symm)]
      simp only [ensureWalk, hl]
      rw [ih ((join_remote_path current seg, true) :: fs) _ hrest,
        flatMap_congr hagree]
      simp [walkPaths, List.flatMap_cons, opsFor, hl]
    · cases b
      · have hagree : ∀ q ∈ walkPaths (join_remote_path current seg) rest,
            opsFor ((join_remote_path current seg, true)
                :: eraseFS fs (join_remote_path current seg)) q
              = opsFor fs q := by
          intro q hq
          unfold opsFor
          rw [lookupFS_cons,
            if_neg (by simp only [beq_iff_eq]; exact fun hh => hlater q hq hh.symm),
            lookupFS_erase_ne fs _ q (hlater q hq)]
        simp only [ensureWalk, hl]
        rw [ih ((join_remote_path current seg, true)
            :: eraseFS fs (join_remote_path current seg)) _ hrest,
          flatMap_congr hagree]
        simp [walkPaths, List.flatMap_cons, opsFor, hl]
      · simp only [ensureWalk, hl]
        rw [ih fs _ hrest]
        simp [walkPaths, List.flatMap_cons, opsFor, hl]

lemma ensureWalk_noop : ∀ (segs : List String) (fs : DirFS) (current : String),
    (∀ q ∈ walkPaths current segs, lookupFS fs q = some true) →
    ensureWalk fs current segs = (fs, []) := by
  intro segs
  induction segs with
  | nil => intro fs current _; rfl
  | cons seg rest ih =>
    intro fs current hall
    have hcur : lookupFS fs (join_remote_path current seg) = some true :=
      hall _ (by simp [walkPaths])
    simp only [ensureWalk, hcur]
    exact ih fs _ (fun q hq => hall q (by simp [walkPaths, hq]))

/-- C2: (i) the mutation-request trace of `ensure_remote_dir` is exactly:
for each walked prefix path (root to leaf, in order), nothing when the
path is already a directory, remove-then-create when it exists as a
non-directory, create when it is missing; (ii) the walked paths strictly
extend one another from the start toward the leaf (root-to-leaf order);
(iii) when every walked path is already a directory, the call performs no
create or remove operation and leaves the state unchanged (idempotence);
(iv) the spec's example: on an empty server `ensure_remote_dir("/a/b/c")`
creates `/a`, `/a/b`, `/a/b/c` in that order and a repeated call is a
no-op. -/
theorem c2_ensure_remote_dir :
    (∀ (fs : DirFS) (path : String),
      trimEndSlashes path ≠ "" → trimEndSlashes path ≠ "." →
      trimEndSlashes path ≠ "/" →
      (ensure_remote_dir fs path).2
        = (walkPaths (if startsWithSlash (trimEndSlashes path) then "/" else ".")
            ((splitSlashes (trimEndSlashes path)).filter
              (fun s => s != "" && s != "."))).flatMap (opsFor fs))
    ∧ (∀ (current : String) (segs : List String), (∀ s ∈ segs, s ≠ "") →
        List.Chain (fun p q => ∃ r, q = p ++ r ∧ r ≠ "") current
          (walkPaths current segs))
    ∧ (∀ (fs : DirFS) (path : String),
        (∀ q ∈ walkPaths
            (if startsWithSlash (trimEndSlashes path) then "/" else ".")
            ((splitSlashes (trimEndSlashes path)).filter
              (fun s => s != "" && s != ".")),
          lookupFS fs q = some true) →
        ensure_remote_dir fs path = (fs, []))
    ∧ ((ensure_remote_dir [] "/a/b/c").2
        = [.createDir "/a", .createDir "/a/b", .createDir "/a/b/c"]
      ∧ ensure_remote_dir (ensure_remote_dir [] "/a/b/c").1 "/a/b/c"
        = ((ensure_remote_dir [] "/a/b/c").1, [])) := by
  refine ⟨?_, fun current segs h => walkPaths_chain segs current h, ?_,
    by decide, by decide⟩
  · intro fs path h1 h2 h3
    unfold ensure_remote_dir
    rw [if_neg (by simp [h1, h2, h3])]
    apply ensureWalk_ops
    intro s hs
    have hf := List.of_mem_filter hs
    simp only [Bool.and_eq_true, bne_iff_ne, ne_eq] at hf
    exact hf.1
  · intro fs path hall
    unfold ensure_remote_dir
    by_cases h : trimEndSlashes path = "" ∨ trimEndSlashes path = "."
        ∨ trimEndSlashes path = "/"
    · rw [if_pos h]
    · rw [if_neg h]
      exact ensureWalk_noop _ fs _ hall

/-- C2 witness: `c2_ensure_remote_dir` applied to the spec's example
path `/a/b/c` on an empty server and on a server where every prefix is
already a directory. -/
theorem c2_ensure_remote_dir_witness :
    (ensure_remote_dir [] "/a/b/c").2
      = (walkPaths (if startsWithSlash (trimEndSlashes "/a/b/c") then "/" else ".")
          ((splitSlashes (trimEndSlashes "/a/b/c")).filter
            (fun s => s != "" && s != "."))).flatMap (opsFor [])
    ∧ ensure_remote_dir [("/a", true), ("/a/b", true), ("/a/b/c", true)] "/a/b/c"
      = ([("/a", true), ("/a/b", true), ("/a/b/c", true)], []) :=
  ⟨c2_ensure_remote_dir.1 [] "/a/b/c" (by decide) (by decide) (by decide),
   c2_ensure_remote_dir.2.2.1
     [("/a", true), ("/a/b", true), ("/a/b/c", true)] "/a/b/c" (by decide)⟩

/-! ### C3: recursive removal -/

lemma lookupR_mem {fs : RemFS} {p : String} {k : RKind}
    (h : lookupR fs p = some k) : (p, k) ∈ fs := by
  unfold lookupR at h
  obtain ⟨e, hfind, hmap⟩ := Option.map_eq_some'.1 h
  have hmem := List.mem_of_find?_eq_some hfind
  have hpred : e.1 = p := by simpa using List.find?_some hfind
  rcases e with ⟨a, b⟩
  cases hpred
  cases hmap
  exact hmem

lemma lookupR_mem_keys {fs : RemFS} {p : String} {k : RKind}
    (h : lookupR fs p = some k) : p ∈ fs.map (fun e => e.1) :=
  List.mem_map_of_mem _ (lookupR_mem h)

lemma eraseR_sublist (fs : RemFS) (p : String) :
    List.Sublist (eraseR fs p) fs :=
  List.filter_sublist fs

lemma not_mem_keys_eraseR (fs : RemFS) (p : String) :
    p ∉ (eraseR fs p).map (fun e => e.1) := by
  intro h
  obtain ⟨e, he, hep⟩ := List.mem_map.1 h
  unfold eraseR at he
  exact bne_iff_ne.mp (List.mem_filter.1 he).2 hep

lemma mem_keys_eraseR_of_ne {fs : RemFS} {p q : String} (h : q ≠ p)
    (hq : q ∈ fs.map (fun e => e.1)) :
    q ∈ (eraseR fs p).map (fun e => e.1) := by
  obtain ⟨e, he, rfl⟩ := List.mem_map.1 hq
  unfold eraseR
  exact List.mem_map_of_mem _
    (List.mem_filter.2 ⟨he, bne_iff_ne.mpr h⟩)

lemma keys_eraseR_subset {fs : RemFS} {p q : String}
    (hq : q ∈ (eraseR fs p).map (fun e => e.1)) :
    q ∈ fs.map (fun e => e.1) :=
  ((eraseR_sublist fs p).map _).subset hq

lemma removeFileR_inv {fs : RemFS} {p : String} {fs' : RemFS}
    (h : removeFileR fs p = some fs') :
    fs' = eraseR fs p
    ∧ (lookupR fs p = some .file ∨ lookupR fs p = some .mfile) := by
  unfold removeFileR at h
  rcases hl : lookupR fs p with _ | k <;> rw [hl] at h
  · cases h
  · cases k with
    | file => exact ⟨(Option.some.inj h).symm, Or.inl rfl⟩
    | dir c => cases h
    | mfile => exact ⟨(Option.some.inj h).symm, Or.inr rfl⟩
    | mdir => cases h
    | mnone => cases h

lemma removeDirR_inv {fs : RemFS} {p : String} {fs' : RemFS}
    (h : removeDirR fs p = some fs') :
    fs' = eraseR fs p ∧ hasUnder fs p = false
    ∧ ∃ k, lookupR fs p = some k := by
  unfold removeDirR at h
  rcases hl : lookupR fs p with _ | k <;> rw [hl] at h
  · cases h
  · cases k with
    | file => cases h
    | dir c =>
      by_cases hu : hasUnder fs p = true
      · rw [if_pos hu] at h; cases h
      · rw [Bool.not_eq_true] at hu
        rw [if_neg (by rw [hu]; exact Bool.false_ne_true)] at h
        exact ⟨(Option.some.inj h).symm, hu, _, rfl⟩
    | mfile => cases h
    | mdir =>
      by_cases hu : hasUnder fs p = true
      · rw [if_pos hu] at h; cases h
      · rw [Bool.not_eq_true] at hu
        rw [if_neg (by rw [hu]; exact Bool.false_ne_true)] at h
        exact ⟨(Option.some.inj h).symm, hu, _, rfl⟩
    | mnone => cases h

lemma metadataR_some {fs : RemFS} {p : String} {b : Bool}
    (h : metadataR fs p = some b) : ∃ k, lookupR fs p = some k := by
  unfold metadataR at h
  rcases hl : lookupR fs p with _ | k <;> rw [hl] at h
  · cases h
  · exact ⟨k, rfl⟩

lemma hasUnder_false {fs : RemFS} {p : String} (h : hasUnder fs p = false) :
    ∀ q ∈ fs.map (fun e => e.1), isUnder p q = false := by
  intro q hq
  obtain ⟨e, he, rfl⟩ := List.mem_map.1 hq
  simpa using (List.any_eq_false.mp h) e he

lemma WfFS_eraseR {fs : RemFS} (p : String) (h : WfFS fs) :
    WfFS (eraseR fs p) := by
  intro e he hk q hq
  refine h e (List.mem_of_mem_filter he) hk q ?_
  obtain ⟨x, hx, rfl⟩ := List.mem_map.1 hq
  exact List.mem_map_of_mem _ (List.mem_of_mem_filter hx)

lemma WfFS_under_false {fs : RemFS} {p : String} {k : RKind}
    (hwf : WfFS fs) (hl : lookupR fs p = some k) (hk : fileKind k = true) :
    ∀ q ∈ fs.map (fun e => e.1), isUnder p q = false :=
  hwf (p, k) (lookupR_mem hl) hk

/-- One successful removal of `current` (by `remove_file` or
`remove_dir`), followed by a run on `rest` satisfying the loop invariant,
satisfies the invariant for the whole stack. -/
lemma removeLoop_step
    {fs fs₂ : RemFS} {current : String} {ops' : List RmOp} {o : RmOp}
    (b : Bool) (rest : List (String × Bool))
    (hpath : RmOp.path o = current)
    (hcur : current ∈ fs.map (fun e => e.1))
    (hunder : ∀ q ∈ fs.map (fun e => e.1), isUnder current q = false)
    (hA : List.Sublist fs₂ (eraseR fs current))
    (hB : ∀ pb ∈ rest, pb.1 ∉ fs₂.map (fun e => e.1)
        ∧ ∀ q ∈ fs₂.map (fun e => e.1), isUnder pb.1 q = false)
    (hC : ∀ op ∈ ops', RmOp.path op ∈ (eraseR fs current).map (fun e => e.1))
    (hD : ∀ l₁ d l₂, ops' = l₁ ++ .rmDir d :: l₂ →
        (∀ op ∈ l₂, isUnder d (RmOp.path op) = false)
        ∧ ∀ q ∈ fs₂.map (fun e => e.1), isUnder d q = false)
    (hE : ∀ q ∈ (eraseR fs current).map (fun e => e.1),
        q ∉ fs₂.map (fun e => e.1) → ∃ op ∈ ops', RmOp.path op = q) :
    List.Sublist fs₂ fs
    ∧ (∀ pb ∈ ((current, b) :: rest), pb.1 ∉ fs₂.map (fun e => e.1)
        ∧ ∀ q ∈ fs₂.map (fun e => e.1), isUnder pb.1 q = false)
    ∧ (∀ op ∈ (o :: ops'), RmOp.path op ∈ fs.map (fun e => e.1))
    ∧ (∀ l₁ d l₂, (o :: ops') = l₁ ++ .rmDir d :: l₂ →
        (∀ op ∈ l₂, isUnder d (RmOp.path op) = false)
        ∧ ∀ q ∈ fs₂.map (fun e => e.1), isUnder d q = false)
    ∧ (∀ q ∈ fs.map (fun e => e.1), q ∉ fs₂.map (fun e => e.1) →
        ∃ op ∈ (o :: ops'), RmOp.path op = q) := by
  have hkeys₂ : ∀ q ∈ fs₂.map (fun e => e.1),
      q ∈ (eraseR fs current).map (fun e => e.1) :=
    fun q hq => (hA.map _).subset hq
  refine ⟨hA.trans (eraseR_sublist fs current), ?_, ?_, ?_, ?_⟩
  · intro pb hpb
    rcases List.mem_cons.1 hpb with h | h
    · subst h
      constructor
      · intro hmem
        exact not_mem_keys_eraseR fs current (hkeys₂ _ hmem)
      · intro q hq
        exact hunder q (keys_eraseR_subset (hkeys₂ q hq))
    · exact hB pb h
  · intro op hop
    rcases List.mem_cons.1 hop with h | h
    · subst h; rw [hpath]; exact hcur
    · exact keys_eraseR_subset (hC op h)
  · intro l₁ d l₂ hsplit
    cases l₁ with
    | nil =>
      rw [List.nil_append] at hsplit
      injection hsplit with ho hops
      subst hops
      have hd : d = current := by
        rw [ho] at hpath
        simpa [RmOp.path] using hpath
      subst hd
      constructor
      · intro op hop
        exact hunder _ (keys_eraseR_subset (hC op hop))
      · intro q hq
        exact hunder q (keys_eraseR_subset (hkeys₂ q hq))
    | cons x l₁' =>
      rw [List.cons_append] at hsplit
      injection hsplit with hx hops
      exact hD l₁' d l₂ hops
  · intro q hq hnq
    by_cases hqc : q = current
    · exact ⟨o, List.mem_cons_self _ _, by rw [hpath, hqc]⟩
    · obtain ⟨op, hop, hpe⟩ := hE q (mem_keys_eraseR_of_ne hqc hq) hnq
      exact ⟨op, List.mem_cons_of_mem _ hop, hpe⟩

lemma mem_foldl_push (current : String) :
    ∀ (names : List String) (s : List (String × Bool)) (x : String × Bool),
    x ∈ s →
    x ∈ names.foldl (fun st name =>
      if name = "." ∨ name = ".." then st
      else (join_remote_path current name, false) :: st) s := by
  intro names
  induction names with
  | nil => intro s x hx; exact hx
  | cons name rest ih =>
    intro s x hx
    rw [List.foldl_cons]
    by_cases h : name = "." ∨ name = ".."
    · rw [if_pos h]; exact ih s x hx
    · rw [if_neg h]
      exact ih _ x (List.mem_cons_of_mem _ hx)

/-- The loop invariant of `removeLoop`, by induction on the fuel: a
successful run only shrinks the tree; clears every stacked path and its
whole subtree; removes only paths that existed; orders every removal below
a directory `d` strictly before `d`'s own removal; and accounts for every
disappeared path with a removal in the trace. -/
lemma removeLoop_spec : ∀ (n : Nat) (fs : RemFS) (stack : List (String × Bool))
    (fs₂ : RemFS) (ops : List RmOp),
    WfFS fs →
    removeLoop n fs stack = some (.ok (fs₂, ops)) →
    List.Sublist fs₂ fs
    ∧ (∀ pb ∈ stack, pb.1 ∉ fs₂.map (fun e => e.1)
        ∧ ∀ q ∈ fs₂.map (fun e => e.1), isUnder pb.1 q = false)
    ∧ (∀ op ∈ ops, RmOp.path op ∈ fs.map (fun e => e.1))
    ∧ (∀ l₁ d l₂, ops = l₁ ++ .rmDir d :: l₂ →
        (∀ op ∈ l₂, isUnder d (RmOp.path op) = false)
        ∧ ∀ q ∈ fs₂.map (fun e => e.1), isUnder d q = false)
    ∧ (∀ q ∈ fs.map (fun e => e.1), q ∉ fs₂.map (fun e => e.1) →
        ∃ op ∈ ops, RmOp.path op = q) := by
  intro n
  induction n with
  | zero =>
    intro fs stack fs₂ ops _ h
    simp [removeLoop] at h
  | succ n ih =>
    intro fs stack fs₂ ops hwf hrun
    cases stack with
    | nil =>
      simp only [removeLoop] at hrun
      have h1 := Option.some.inj hrun
      have h2 := Except.ok.inj h1
      injection h2 with hfs hops
      subst hfs
      subst hops
      refine ⟨List.Sublist.refl fs, by simp, by simp, ?_, ?_⟩
      · intro l₁ d l₂ hsplit
        cases l₁ <;> simp at hsplit
      · intro q hq hnq
        exact absurd hq hnq
    | cons top rest =>
      rcases top with ⟨current, visited⟩
      rcases hm : metadataR fs current with _ | bm
      · -- metadata cannot be determined: try remove_file, then remove_dir
        simp only [removeLoop, hm] at hrun
        rcases hrf : removeFileR fs current with _ | fs'
        · simp only [hrf] at hrun
          rcases hrd : removeDirR fs current with _ | fs'
          · simp only [hrd] at hrun
            simp at hrun
          · simp only [hrd] at hrun
            obtain ⟨r, hr, hF⟩ := Option.map_eq_some'.1 hrun
            cases r with
            | error e => simp [Except.map] at hF
            | ok out =>
              rcases out with ⟨fsr, opsr⟩
              simp only [Except.map] at hF
              have h2 := Except.ok.inj hF
              injection h2 with hfs hops
              subst hfs
              subst hops
              obtain ⟨hfs', hu, k, hk⟩ := removeDirR_inv hrd
              subst hfs'
              obtain ⟨hA, hB, hC, hD, hE⟩ :=
                ih (eraseR fs current) rest fsr opsr (WfFS_eraseR _ hwf) hr
              exact removeLoop_step visited rest rfl (lookupR_mem_keys hk)
                (hasUnder_false hu) hA hB hC hD hE
        · simp only [hrf] at hrun
          obtain ⟨r, hr, hF⟩ := Option.map_eq_some'.1 hrun
          cases r with
          | error e => simp [Except.map] at hF
          | ok out =>
            rcases out with ⟨fsr, opsr⟩
            simp only [Except.map] at hF
            have h2 := Except.ok.inj hF
            injection h2 with hfs hops
            subst hfs
            subst hops
            obtain ⟨hfs', hlk⟩ := removeFileR_inv hrf
            subst hfs'
            have hfile : ∃ k, lookupR fs current = some k ∧ fileKind k = true := by
              rcases hlk with h | h
              · exact ⟨_, h, rfl⟩
              · exact ⟨_, h, rfl⟩
            obtain ⟨k, hk, hfk⟩ := hfile
            obtain ⟨hA, hB, hC, hD, hE⟩ :=
              ih (eraseR fs current) rest fsr opsr (WfFS_eraseR _ hwf) hr
            exact removeLoop_step visited rest rfl (lookupR_mem_keys hk)
              (WfFS_under_false hwf hk hfk) hA hB hC hD hE
      · cases bm
        · -- metadata: not a directory → remove_file
          simp only [removeLoop, hm] at hrun
          rcases hrf : removeFileR fs current with _ | fs'
          · simp only [hrf] at hrun
            simp at hrun
          · simp only [hrf] at hrun
            obtain ⟨r, hr, hF⟩ := Option.map_eq_some'.1 hrun
            cases r with
            | error e => simp [Except.map] at hF
            | ok out =>
              rcases out with ⟨fsr, opsr⟩
              simp only [Except.map] at hF
              have h2 := Except.ok.inj hF
              injection h2 with hfs hops
              subst hfs
              subst hops
              obtain ⟨hfs', hlk⟩ := removeFileR_inv hrf
              subst hfs'
              have hfile : ∃ k, lookupR fs current = some k ∧ fileKind k = true := by
                rcases hlk with h | h
                · exact ⟨_, h, rfl⟩
                · exact ⟨_, h, rfl⟩
              obtain ⟨k, hk, hfk⟩ := hfile
              obtain ⟨hA, hB, hC, hD, hE⟩ :=
                ih (eraseR fs current) rest fsr opsr (WfFS_eraseR _ hwf) hr
              exact removeLoop_step visited rest rfl (lookupR_mem_keys hk)
                (WfFS_under_false hwf hk hfk) hA hB hC hD hE
        · -- metadata: a directory
          cases visited with
          | false =>
            -- first visit: re-push marked visited, then push the children
            simp only [removeLoop, hm, Bool.false_eq_true, if_false] at hrun
            rcases hread : readDirR fs current with _ | names
            · simp only [hread] at hrun
              simp at hrun
            · simp only [hread] at hrun
              obtain ⟨hA, hB, hC, hD, hE⟩ := ih fs _ fs₂ ops hwf hrun
              refine ⟨hA, ?_, hC, hD, hE⟩
              intro pb hpb
              rcases List.mem_cons.1 hpb with h | h
              · subst h
                exact hB (current, true)
                  (mem_foldl_push current names _ _ (List.mem_cons_self _ _))
              · exact hB pb
                  (mem_foldl_push current names _ _ (List.mem_cons_of_mem _ h))
          | true =>
            -- second visit: all children done, remove the directory
            simp only [removeLoop, hm, if_true] at hrun
            rcases hrd : removeDirR fs current with _ | fs'
            · simp only [hrd] at hrun
              simp at hrun
            · simp only [hrd] at hrun
              obtain ⟨r, hr, hF⟩ := Option.map_eq_some'.1 hrun
              cases r with
              | error e => simp [Except.map] at hF
              | ok out =>
                rcases out with ⟨fsr, opsr⟩
                simp only [Except.map] at hF
                have h2 := Except.ok.inj hF
                injection h2 with hfs hops
                subst hfs
                subst hops
                obtain ⟨hfs', hu, k, hk⟩ := removeDirR_inv hrd
                subst hfs'
                obtain ⟨hA, hB, hC, hD, hE⟩ :=
                  ih (eraseR fs current) rest fsr opsr (WfFS_eraseR _ hwf) hr
                exact removeLoop_step true rest rfl (lookupR_mem_keys hk)
                  (hasUnder_false hu) hA hB hC hD hE

/-- C3: for a successful run of `remove_remote_entry_recursive` over a
well-formed remote tree, (i) no entry remains at or under the target
path; (ii) the removal trace is post-ordered — after a directory's
removal no removal below it occurs, so every child's removal is strictly
before its parent directory's, and every entry that was at or under the
target is removed by some traced operation; (iii) a directory is visited
by re-pushing it marked visited before pushing all of its children
(workstack unfolding); (iv) when an entry's metadata cannot be
determined, file removal is attempted first (succeeding alone when it
can), then directory removal as fallback, and an error is surfaced only
when both fail. -/
theorem c3_remove_recursive :
    (∀ (n : Nat) (fs : RemFS) (path : String) (fs₂ : RemFS) (ops : List RmOp),
      WfFS fs →
      remove_remote_entry_recursive n fs path = some (.ok (fs₂, ops)) →
      (∀ q ∈ fs₂.map (fun e => e.1), q ≠ path ∧ isUnder path q = false)
      ∧ (∀ l₁ d l₂, ops = l₁ ++ .rmDir d :: l₂ →
          ∀ op ∈ l₂, isUnder d (RmOp.path op) = false)
      ∧ (∀ q ∈ fs.map (fun e => e.1), (q = path ∨ isUnder path q = true) →
          ∃ op ∈ ops, RmOp.path op = q))
    ∧ (∀ (n : Nat) (fs : RemFS) (names : List String) (current : String)
        (rest : List (String × Bool)),
        lookupR fs current = some (.dir names) →
        removeLoop (n + 1) fs ((current, false) :: rest)
          = removeLoop n fs
              (names.foldl (fun st name =>
                if name = "." ∨ name = ".." then st
                else (join_remote_path current name, false) :: st)
                ((current, true) :: rest)))
    ∧ (∀ (n : Nat) (fs : RemFS) (current : String)
        (rest : List (String × Bool)),
        lookupR fs current = some .mfile →
        removeLoop (n + 1) fs ((current, false) :: rest)
          = (removeLoop n (eraseR fs current) rest).map (fun r =>
              r.map (fun out => (out.1, .rmFile current :: out.2))))
    ∧ (∀ (n : Nat) (fs : RemFS) (current : String)
        (rest : List (String × Bool)),
        lookupR fs current = some .mdir → hasUnder fs current = false →
        removeLoop (n + 1) fs ((current, false) :: rest)
          = (removeLoop n (eraseR fs current) rest).map (fun r =>
              r.map (fun out => (out.1, .rmDir current :: out.2))))
    ∧ (∀ (n : Nat) (fs : RemFS) (current : String)
        (rest : List (String × Bool)),
        lookupR fs current = some .mnone →
        removeLoop (n + 1) fs ((current, false) :: rest)
          = some (.error ("Failed to remove " ++ current))) := by
  refine ⟨?_, ?_, ?_, ?_, ?_⟩
  · intro n fs path fs₂ ops hwf hrun
    obtain ⟨hA, hB, hC, hD, hE⟩ :=
      removeLoop_spec n fs [(path, false)] fs₂ ops hwf hrun
    have hp := hB (path, false) (List.mem_cons_self _ _)
    refine ⟨?_, ?_, ?_⟩
    · intro q hq
      exact ⟨fun hqp => hp.1 (hqp ▸ hq), hp.2 q hq⟩
    · intro l₁ d l₂ hsplit
      exact (hD l₁ d l₂ hsplit).1
    · intro q hq hloc
      rcases hloc with h | h
      · exact hE q hq (by rw [h]; exact hp.1)
      · exact hE q hq (fun hmem => absurd h (by simp [hp.2 q hmem]))
  · intro n fs names current rest hl
    have hm : metadataR fs current = some true := by simp [metadataR, hl]
    have hr : readDirR fs current = some names := by simp [readDirR, hl]
    simp [removeLoop, hm, hr]
  · intro n fs current rest hl
    have hm : metadataR fs current = none := by simp [metadataR, hl]
    have hrf : removeFileR fs current = some (eraseR fs current) := by
      simp [removeFileR, hl]
    simp [removeLoop, hm, hrf]
  · intro n fs current rest hl hu
    have hm : metadataR fs current = none := by simp [metadataR, hl]
    have hrf : removeFileR fs current = none := by simp [removeFileR, hl]
    have hrd : removeDirR fs current = some (eraseR fs current) := by
      simp [removeDirR, hl, hu]
    simp [removeLoop, hm, hrf, hrd]
  · intro n fs current rest hl
    have hm : metadataR fs current = none := by simp [metadataR, hl]
    have hrf : removeFileR fs current = none := by simp [removeFileR, hl]
    have hrd : removeDirR fs current = none := by simp [removeDirR, hl]
    simp [removeLoop, hm, hrf, hrd]

/-- C3 witness: removing `/t` from a tree with a file, a nested
subdirectory and a metadata-less child empties the subtree, and the
nested child `/t/a`'s removal is in the trace. -/
theorem c3_remove_recursive_witness :
    (∀ q ∈ ([] : RemFS).map (fun e => e.1), q ≠ "/t" ∧ isUnder "/t" q = false)
    ∧ ∃ op ∈ [RmOp.rmFile "/t/b/c", RmOp.rmDir "/t/b",
        RmOp.rmFile "/t/a", RmOp.rmDir "/t"], RmOp.path op = "/t/a" :=
  ⟨(c3_remove_recursive.1 20
      [("/t", .dir ["a", "b"]), ("/t/a", .file), ("/t/b", .dir ["c"]),
       ("/t/b/c", .mfile)] "/t" []
      [.rmFile "/t/b/c", .rmDir "/t/b", .rmFile "/t/a", .rmDir "/t"]
      (by unfold WfFS; decide) rfl).1,
   (c3_remove_recursive.1 20
      [("/t", .dir ["a", "b"]), ("/t/a", .file), ("/t/b", .dir ["c"]),
       ("/t/b/c", .mfile)] "/t" []
      [.rmFile "/t/b/c", .rmDir "/t/b", .rmFile "/t/a", .rmDir "/t"]
      (by unfold WfFS; decide) rfl).2.2 "/t/a" (by decide) (Or.inr (by decide))⟩

end Grustyssh
